import Mathlib

/-!
Verification of the radixplore pipeline's alignment and disambiguation engine.

The Lean definitions below are a shallow embedding of the Python source:

* `src/pipeline/ner_model.py` — `convert_json_to_iob` (whitespace
  tokenization with scanned spans, annotation-to-IOB alignment),
  `fine_tune_ner_model`'s label encoding, and `tokenize_and_align`'s
  sub-word label re-alignment;
* `src/pipeline/geolocator.py` — `geocode_location`,
  `simulate_llm_location_extraction`, `simulate_llm_disambiguation`, and the
  record-emission step of `run_geolocation_pipeline`.

Python machine details are modelled explicitly: fallible operations return
`Except PyErr` or `Option`, Python `str` values are Lean `String`s (operating
on `List Char` where positional scanning is needed), and numeric scores use
`ℚ` (the reachable score values `0, 0.5, 0.8, 1.3` are ordered and compared
against thresholds identically in binary floating point and in `ℚ`).
-/

/-- Python exception kinds reachable in the embedded fragments. -/
inductive PyErr where
  | indexError
  | typeError
  | nameError
deriving DecidableEq, Repr

/-- Python substring test on character lists: the needle occurs contiguously
in the haystack (`needle in hay` for `str`). -/
def pyIn (needle hay : List Char) : Bool :=
  (List.range (hay.length + 1)).any fun i => needle.isPrefixOf (hay.drop i)

/-- Python substring test on strings. -/
def pyInS (needle hay : String) : Bool :=
  pyIn needle.toList hay.toList

/-- Python `str.lower()` (ASCII case folding suffices for all strings the
pipeline compares). -/
def pyLower (s : String) : String :=
  String.mk (s.toList.map Char.toLower)

/-- Helper for `pySplit`: accumulates the current (reversed) token. -/
def pySplitAux : List Char → List Char → List (List Char)
  | [], acc => if acc.isEmpty then [] else [acc.reverse]
  | c :: rest, acc =>
    if c.isWhitespace then
      if acc.isEmpty then pySplitAux rest [] else acc.reverse :: pySplitAux rest []
    else
      pySplitAux rest (c :: acc)

/-- Python `str.split()` with no argument: maximal runs of non-whitespace
characters, leading/trailing/repeated whitespace ignored. -/
def pySplit (s : List Char) : List (List Char) :=
  pySplitAux s []

/-- Python `text.find(pat, start)`: the least index `i ≥ start` at which `pat`
occurs in `text`, `none` standing for Python's `-1`. -/
def pyFind (text pat : List Char) (start : Nat) : Option Nat :=
  (List.range (text.length + 1)).find? fun i =>
    decide (start ≤ i) && pat.isPrefixOf (text.drop i)

/-- The token-span scan of `convert_json_to_iob` (ner_model.py lines 30-35):
each token is located by `text.find(token, current_pos)`; a token that cannot
be found is skipped, otherwise its `(start, start + len(token))` span is
recorded and the scan position advances past it. -/
def computeSpans (text : List Char) : List (List Char) → Nat → List (Nat × Nat)
  | [], _ => []
  | tok :: rest, current_pos =>
    match pyFind text tok current_pos with
    | none => computeSpans text rest current_pos
    | some s => (s, s + tok.length) :: computeSpans text rest (s + tok.length)

/-- The `value` object of one annotation (ner_model.py line 38-39).  A missing
`"value"` key yields the empty dict, i.e. all fields `none`; `labels` is
`none` when the key is absent and otherwise holds the JSON list, whose
elements may themselves be JSON `null` (`Option String`). -/
structure AnnValue where
  start : Option Int
  end_ : Option Int
  labels : Option (List (Option String))
deriving DecidableEq, Repr

/-- `val.get("labels", [None])[0]` (ner_model.py line 39): indexing the
(defaulted) labels list raises `IndexError` when the list is present but
empty. -/
def extractLabel (v : AnnValue) : Except PyErr (Option String) :=
  match v.labels.getD [none] with
  | [] => .error .indexError
  | l :: _ => .ok l

/-- The strict interval-overlap test of ner_model.py line 44:
`max(start_char, token_start) < min(end_char, token_end)`. -/
def spanOverlap (start_char end_char : Int) (tok : Int × Int) : Bool :=
  max start_char tok.1 < min end_char tok.2

/-- The inner loop of ner_model.py lines 42-46: walk the token spans with
index `i` and a `first` flag, overwriting `tags[i]` with `B-`/`I-` prefixed
labels at every overlapping token. -/
def tagLoop (label : String) (start_char end_char : Int) :
    List (Int × Int) → Nat → Bool → List String → List String
  | [], _, _, tags => tags
  | tok :: rest, i, first, tags =>
    if spanOverlap start_char end_char tok then
      tagLoop label start_char end_char rest (i + 1) false
        (tags.set i (if first then "B-" ++ label else "I-" ++ label))
    else
      tagLoop label start_char end_char rest (i + 1) first tags

/-- Processing of one annotation (ner_model.py lines 37-46).  The guard
`if label != "PROJECT" or start_char is None: continue` skips the span;
otherwise the token loop runs.  When `end_char` is `None` the first loop
iteration evaluates `min(None, token_end)` and raises `TypeError`; with no
token spans the loop body never runs and the tags are unchanged. -/
def applyAnn (token_spans : List (Int × Int)) (tags : List String) (v : AnnValue) :
    Except PyErr (List String) :=
  match extractLabel v with
  | .error e => .error e
  | .ok label =>
    if label ≠ some "PROJECT" ∨ v.start = none then .ok tags
    else
      match v.start, v.end_ with
      | some s, some e => .ok (tagLoop "PROJECT" s e token_spans 0 true tags)
      | _, none => if token_spans.isEmpty then .ok tags else .error .typeError
      | none, some _ => .ok tags

/-- The outer annotation loop of ner_model.py lines 37-46, in listed order;
an exception raised while processing one annotation propagates. -/
def foldAnns (token_spans : List (Int × Int)) :
    List AnnValue → List String → Except PyErr (List String)
  | [], tags => .ok tags
  | a :: rest, tags =>
    match applyAnn token_spans tags a with
    | .error e => .error e
    | .ok tags1 => foldAnns token_spans rest tags1

/-- The per-record body of `convert_json_to_iob` (ner_model.py lines 22-47):
whitespace tokenization, span scan from position 0, tags initialized to
`"O"`, then the annotation loop.  Returns `(tokens, ner_tags)`. -/
def convert_record (text : String) (annotations : List AnnValue) :
    Except PyErr (List String × List String) :=
  let tokens := pySplit text.toList
  let tags := List.replicate tokens.length "O"
  let token_spans := (computeSpans text.toList tokens 0).map
    fun p => ((p.1 : Int), (p.2 : Int))
  (foldAnns token_spans annotations tags).map
    fun tg => (tokens.map fun t => String.mk t, tg)

deriving instance DecidableEq for Except

/-- `label_list` of `fine_tune_ner_model` (ner_model.py line 53). -/
def label_list : List String := ["O", "B-PROJECT", "I-PROJECT"]

/-- `label_encoding.get(tag, 0)` (ner_model.py lines 54-56): the fixed
enumeration position of the tag in `label_list`, defaulting to `0` for
unknown tags. -/
def label_encoding (tag : String) : Int :=
  match label_list.findIdx? fun l => l == tag with
  | some i => (i : Int)
  | none => 0

/-- The inverse of the fixed enumeration: id `i` maps back to
`label_list[i]` when `i` is a valid position. -/
def label_decoding (i : Int) : Option String :=
  if i < 0 then none else label_list[i.toNat]?

/-- The per-example label re-alignment loop of `tokenize_and_align`
(ner_model.py lines 66-69): a piece whose `word_idx` is `None` or repeats
the previous piece's `word_idx` gets `-100`, any other piece gets
`label[word_idx]` (list indexing, `none` modelling `IndexError`). -/
def pieceValue (ner_tags : List Int) (word_idx previous_word_idx : Option Nat) :
    Option Int :=
  match word_idx with
  | none => some (-100 : Int)
  | some idx =>
    if word_idx = previous_word_idx then some (-100 : Int) else ner_tags[idx]?

/-- The whole re-alignment loop: one `pieceValue` per sub-word piece,
threading `previous_word_idx`; `none` propagates an `IndexError` from
`label[word_idx]`. -/
def alignLabelIds (ner_tags : List Int) :
    List (Option Nat) → Option Nat → Option (List Int)
  | [], _ => some []
  | word_idx :: rest, previous_word_idx =>
    match pieceValue ner_tags word_idx previous_word_idx with
    | none => none
    | some v =>
      match alignLabelIds ner_tags rest word_idx with
      | none => none
      | some tail => some (v :: tail)

/-- Position `k` of the sub-word sequence is an ignore position: its
`word_idx` is `None`, or it repeats the immediately preceding `word_idx`
(the loop's `previous_word_idx`, which starts as `None`). -/
def ignorePos (word_ids : List (Option Nat)) (k : Nat) : Prop :=
  word_ids[k]? = some none ∨ (0 < k ∧ word_ids[k]? = word_ids[k - 1]?)

instance (word_ids : List (Option Nat)) (k : Nat) : Decidable (ignorePos word_ids k) := by
  unfold ignorePos; infer_instance

/-- geopy exceptions caught by `geocode_location` (geolocator.py lines
20-24): the two transient classes, and the catch-all `Exception`. -/
inductive GeopyError where
  | geocoderTimedOut
  | geocoderUnavailable
  | otherException (msg : String)
deriving DecidableEq, Repr

/-- One geopy `Location` result: the fields `geocode_location` reads. -/
structure GeoLocation where
  address : String
  latitude : ℚ
  longitude : ℚ
deriving DecidableEq, Repr

/-- A candidate dict `{"name", "latitude", "longitude"}` (geolocator.py
line 19). -/
structure LocationCandidate where
  name : String
  latitude : ℚ
  longitude : ℚ
deriving DecidableEq, Repr

/-- `geocode_location` (geolocator.py lines 13-25), with the external
backend call `geolocator.geocode(name, exactly_one=False, limit=3)` modelled
by its outcome: an exception, or `None`, or a list of locations.  Both error
arms return `[]`; `if not locations: return []` covers `None` and the empty
list; otherwise each location is projected to a candidate dict. -/
def geocode_location (backend_response : Except GeopyError (Option (List GeoLocation))) :
    List LocationCandidate :=
  match backend_response with
  | .error _ => []
  | .ok none => []
  | .ok (some locations) =>
    if locations.isEmpty then []
    else locations.map fun loc => ⟨loc.address, loc.latitude, loc.longitude⟩

/-- The stop-word set of `simulate_llm_location_extraction` (geolocator.py
line 30). -/
def stop_words : List String := ["The", "A", "An", "This", "Project", "Company"]

/-- `simulate_llm_location_extraction` (geolocator.py lines 27-34).  The
external `re.findall` call is modelled by its result list
`potential_locations`; the function filters out stop words and strings of
length ≤ 2, appends `"Western Australia"` when the literal `"WA"` occurs in
the context and it is not already present, and deduplicates via `set`
(whose iteration order is arbitrary in Python; modelled as `dedup`, the
claims about the output are membership-based). -/
def simulate_llm_location_extraction (potential_locations : List String)
    (context : String) : List String :=
  let locations := potential_locations.filter fun loc =>
    !(stop_words.contains loc) && decide (loc.length > 2)
  let locations :=
    if pyInS "WA" context && !(locations.contains "Western Australia") then
      locations ++ ["Western Australia"]
    else locations
  locations.dedup

/-- The additive score of one candidate (geolocator.py lines 44-48): an
`if`/`elif` pair adding `0.8`, then an independent `if` adding `0.5`.  Note
the `elif` tests the lowercase literal `'wa'` against the raw context. -/
def candScore (context : String) (cand : LocationCandidate) : ℚ :=
  let cand_name_lower := pyLower cand.name
  let s1 : ℚ :=
    if pyInS "western australia" (pyLower context) &&
        pyInS "western australia" cand_name_lower then 8/10
    else if pyInS "wa" context && pyInS "western australia" cand_name_lower then 8/10
    else 0
  let s2 : ℚ :=
    if pyInS "australia" (pyLower context) && pyInS "australia" cand_name_lower then 5/10
    else 0
  s1 + s2

/-- The best-candidate loop of geolocator.py lines 42-49: starting from
`(None, -1)`, a candidate replaces the current best exactly when its score
strictly exceeds the running maximum. -/
def pickBest (context : String) :
    List LocationCandidate → Option LocationCandidate × ℚ → Option LocationCandidate × ℚ
  | [], acc => acc
  | cand :: rest, (best, maxScore) =>
    if candScore context cand > maxScore then
      pickBest context rest (some cand, candScore context cand)
    else
      pickBest context rest (best, maxScore)

/-- Python `round(x, 4)` in exact arithmetic: round half to even at the
fourth decimal.  The reachable scores `0, 1/2, 4/5, 13/10` are fixed points
of this map, and none sits at a half-ulp, so the binary-float `round` of the
source agrees with this rational model on every reachable input. -/
def pyRound4 (x : ℚ) : ℚ :=
  let y : ℚ := x * 10 ^ 4
  let r : Int := if y - ⌊y⌋ = 1/2 then (if 2 ∣ ⌊y⌋ then ⌊y⌋ else ⌊y⌋ + 1) else round y
  (r : ℚ) / 10 ^ 4

/-- The result dict of `simulate_llm_disambiguation`. -/
structure DisambiguationResult where
  chosen_location : Option String
  coordinates : Option (ℚ × ℚ)
  geolocation_confidence : ℚ
  justification : String
deriving DecidableEq, Repr

/-- Justification text of the high-match branch (geolocator.py line 53);
the embedded score is formatted via `reprStr` rather than Python's float
formatting, which no claim depends on. -/
def successJustification (confidence : ℚ) : String :=
  "Simulation selected candidate based on high contextual match (score: " ++
    reprStr confidence ++ ")."

/-- Justification text of the fallback branch (geolocator.py line 56). -/
def fallbackJustification : String :=
  "Context was ambiguous. Simulation defaulted to the first available result."

/-- Justification text of the empty-candidates branch (geolocator.py line 40). -/
def noCandidatesJustification : String :=
  "No location candidates were provided to the simulation."

/-- `simulate_llm_disambiguation` (geolocator.py lines 36-56).  Candidates
are dicts carrying at least the `name` key, so `best_candidate` is truthy in
`if best_candidate and max_score > 0.5` exactly when it is not `None`. -/
def simulate_llm_disambiguation (context : String)
    (candidates : List LocationCandidate) : DisambiguationResult :=
  match candidates with
  | [] => ⟨none, none, 0, noCandidatesJustification⟩
  | first_cand :: _ =>
    match pickBest context candidates (none, -1) with
    | (some best, maxScore) =>
      if maxScore > 1/2 then
        let confidence := min (pyRound4 maxScore) 1
        ⟨some best.name, some (best.latitude, best.longitude), confidence,
          successJustification confidence⟩
      else
        ⟨some first_cand.name, some (first_cand.latitude, first_cand.longitude),
          1/4, fallbackJustification⟩
    | (none, _) =>
      ⟨some first_cand.name, some (first_cand.latitude, first_cand.longitude),
        1/4, fallbackJustification⟩

/-- Names resolvable at the record-emission statement of
`run_geolocation_pipeline` (geolocator.py line 88): function locals and loop
variables, the context manager target `f_out`, and the module-level
bindings.  The bare name `f` is not among them. -/
def emission_scope : List String :=
  ["input_file", "output_file", "geolocator", "records", "i", "record",
   "context", "location_names", "name", "all_candidates", "final_choice",
   "f_out", "f_in", "json", "os", "re", "time", "Nominatim",
   "GeocoderTimedOut", "GeocoderUnavailable", "geocode_location",
   "simulate_llm_location_extraction", "simulate_llm_disambiguation",
   "run_geolocation_pipeline"]

/-- The record-emission statement `json.dump(record, f_out); f.write('\n')`
(geolocator.py line 88).  `json.dump` appends the serialized record to the
file; then Python resolves the bare name `f`, which is bound in no enclosing
scope, raising `NameError` before the newline is written. -/
def emit_final_record (file_contents : String) (record_json : String) :
    Except PyErr String :=
  let file_contents := file_contents ++ record_json
  if emission_scope.contains "f" then .ok (file_contents ++ "\n")
  else .error .nameError

/-! ### Derived notions used to state the claims -/

/-- Overlap test lifted to an optional token span (no span, no overlap). -/
def optHit (s e : Int) : Option (Int × Int) → Bool
  | some tok => spanOverlap s e tok
  | none => false

/-- No token span strictly before position `n` overlaps `[s, e)`. -/
def noHitBefore (s e : Int) (spans : List (Int × Int)) (n : Nat) : Bool :=
  (spans.take n).all fun tok => !(spanOverlap s e tok)

/-- The character interval an annotation actually applies to the tags:
`some (start, end)` exactly when the annotation survives the guard (label
`"PROJECT"`, start present) and carries an end offset. -/
def appliedSpan (v : AnnValue) : Option (Int × Int) :=
  match extractLabel v, v.start, v.end_ with
  | .ok (some "PROJECT"), some s, some e => some (s, e)
  | _, _, _ => none

/-- The last annotation, in listed order, that is applied and overlaps token
`i` — the writer whose tag survives (last-write-wins). -/
def lastWriter (anns : List AnnValue) (token_spans : List (Int × Int)) (i : Nat) :
    Option (Int × Int) :=
  (anns.filterMap appliedSpan).reverse.find? fun se => optHit se.1 se.2 token_spans[i]?

/-! ### Claim C1 -/

/-- Claim C1, refuted: aligning the annotation `(start 0, end 14, PROJECT)`
against `"Acme Gold Project near Kalgoorlie"` does NOT produce
`["B-PROJECT", "I-PROJECT", "O", "O", "O"]` — offset 14 falls strictly
inside the token `"Project"` (span 10-17), which therefore also overlaps. -/
theorem acme_example_claim_refuted :
    convert_record "Acme Gold Project near Kalgoorlie"
        [⟨some 0, some 14, some [some "PROJECT"]⟩] ≠
      .ok (["Acme", "Gold", "Project", "near", "Kalgoorlie"],
           ["B-PROJECT", "I-PROJECT", "O", "O", "O"]) := by
  decide

/-- Claim C1, amended: with `end = 14` the overlap rule
`max(start, tok_start) < min(end, tok_end)` also catches `"Project"`
(`max(0,10) = 10 < 14 = min(14,17)`), so the produced tag sequence is
`["B-PROJECT", "I-PROJECT", "I-PROJECT", "O", "O"]`. -/
theorem acme_example_actual_tags :
    convert_record "Acme Gold Project near Kalgoorlie"
        [⟨some 0, some 14, some [some "PROJECT"]⟩] =
      .ok (["Acme", "Gold", "Project", "near", "Kalgoorlie"],
           ["B-PROJECT", "I-PROJECT", "I-PROJECT", "O", "O"]) := by
  decide

/-! ### Claim C2 -/

/-- Claim C2 (code bug): the record-emission statement of
`run_geolocation_pipeline` writes the serialized record and then resolves
the unbound name `f`, raising `NameError`; no record is ever followed by its
newline, and the run aborts on the first emitted record instead of emitting
one JSON object per line. -/
theorem emit_record_name_error :
    emit_final_record "" "serialized-final-record" = .error .nameError ∧
    ∀ (contents recordJson : String),
      emit_final_record contents recordJson ≠ .ok (contents ++ recordJson ++ "\n") := by
  constructor
  · decide
  · intro contents recordJson
    unfold emit_final_record
    rw [show emission_scope.contains "f" = false from by decide]
    simp

/-! ### Claim C4 -/

/-- Claim C4, refuted: the context `"THE PROJECT LIES IN WA"` contains the
case-sensitive literal `"WA"` and the candidate's lowercased name contains
`"western australia"`, yet the score is `0` — no `+0.8` bonus is added,
because the source tests the lowercase literal `'wa'` against the raw
context (geolocator.py line 47). -/
theorem wa_bonus_claim_refuted :
    pyInS "WA" "THE PROJECT LIES IN WA" = true ∧
    pyInS "western australia" (pyLower "Western Australia") = true ∧
    candScore "THE PROJECT LIES IN WA" ⟨"Western Australia", 0, 0⟩ = 0 := by
  refine ⟨by decide, by decide, ?_⟩
  simp only [candScore]
  norm_num [(by decide : pyInS "western australia" (pyLower "THE PROJECT LIES IN WA") = false),
    (by decide : pyInS "wa" "THE PROJECT LIES IN WA" = false),
    (by decide : pyInS "australia" (pyLower "THE PROJECT LIES IN WA") = false)]

/-- Claim C4, amended: the `+0.8` bonus fires exactly when the candidate's
lowercased name contains `"western australia"` and the context contains
`"western australia"` case-insensitively or the case-sensitive lowercase
literal `"wa"` (not `"WA"`); independently `+0.5` is added when the context
contains `"australia"` case-insensitively and the candidate's lowercased
name contains `"australia"`. -/
theorem score_closed_form :
    ∀ (context : String) (cand : LocationCandidate),
      candScore context cand =
        (if (pyInS "western australia" (pyLower context) || pyInS "wa" context) &&
            pyInS "western australia" (pyLower cand.name) then 8/10 else 0) +
        (if pyInS "australia" (pyLower context) &&
            pyInS "australia" (pyLower cand.name) then 5/10 else 0) := by
  intro context cand
  simp only [candScore]
  cases h1 : pyInS "western australia" (pyLower context) <;>
    cases h2 : pyInS "wa" context <;>
      cases h3 : pyInS "western australia" (pyLower cand.name) <;>
        simp

/-! ### Claim C7 -/

/-- Claim C7: `geocode_location` maps every backend exception (timeout,
unavailability, or any other error) to the empty candidate list — it never
propagates an exception — and when the backend honours the requested
`limit=3` it returns at most 3 candidates. -/
theorem geocode_location_contract :
    (∀ e : GeopyError, geocode_location (.error e) = []) ∧
    (∀ backend_response,
      (∀ locs, backend_response = .ok (some locs) → locs.length ≤ 3) →
      (geocode_location backend_response).length ≤ 3) := by
  constructor
  · intro e; rfl
  · intro backend_response hlimit
    match backend_response with
    | .error _ => simp [geocode_location]
    | .ok none => simp [geocode_location]
    | .ok (some locs) =>
      simp only [geocode_location]
      split
      · simp
      · simpa using hlimit locs rfl

/-- Witness for claim C7 at concrete inputs: a timeout yields `[]`, and a
one-element backend answer yields at most 3 candidates. -/
theorem geocode_location_contract_witness :
    geocode_location (.error .geocoderTimedOut) = [] ∧
    (geocode_location (.ok (some [⟨"Perth", 0, 0⟩]))).length ≤ 3 := by
  constructor
  · exact geocode_location_contract.1 .geocoderTimedOut
  · refine geocode_location_contract.2 (.ok (some [⟨"Perth", 0, 0⟩])) ?_
    intro locs h
    simp only [Except.ok.injEq, Option.some.injEq] at h
    subst h
    decide

/-! ### Claim C3 -/

/-- The context and candidate pair of the spec's Perth example. -/
def perthContext : String := "The project lies in WA near Perth"

/-- First candidate of the Perth example. -/
def perthAU : LocationCandidate := ⟨"Perth, Australia", -3195/100, 11586/100⟩

/-- Second candidate of the Perth example. -/
def perthUK : LocationCandidate := ⟨"Perth, UK", 564/10, -343/100⟩

/-- Both Perth candidates score `0`: the context contains neither
`"australia"` (case-insensitively) nor the lowercase literal `"wa"`, and
neither candidate name contains `"western australia"`. -/
lemma perth_scores_zero :
    candScore perthContext perthAU = 0 ∧ candScore perthContext perthUK = 0 := by
  constructor <;>
  · simp only [candScore, perthContext, perthAU, perthUK]
    norm_num [(by decide : pyInS "western australia"
        (pyLower "The project lies in WA near Perth") = false),
      (by decide : pyInS "wa" "The project lies in WA near Perth" = false),
      (by decide : pyInS "australia"
        (pyLower "The project lies in WA near Perth") = false)]

/-- On the Perth example the scorer takes the ambiguous fallback branch:
first candidate, confidence exactly `1/4`. -/
lemma perth_example_result :
    simulate_llm_disambiguation perthContext [perthAU, perthUK] =
      ⟨some "Perth, Australia", some (-3195/100, 11586/100), 1/4,
        fallbackJustification⟩ := by
  obtain ⟨hA, hB⟩ := perth_scores_zero
  have hpick : pickBest perthContext [perthAU, perthUK] (none, -1) = (some perthAU, 0) := by
    norm_num [pickBest, hA, hB]
  simp only [simulate_llm_disambiguation]
  rw [hpick]
  norm_num [perthAU]

/-- Claim C3, refuted: on context `"The project lies in WA near Perth"`
with candidates `"Perth, Australia"` and `"Perth, UK"`, the returned
`geolocation_confidence` is `1/4`, not greater than `1/2` — the claimed
winning score `≥ 0.5` and confidence `> 0.5` do not occur (the context
contains no `"australia"` and no lowercase `"wa"`). -/
theorem perth_example_claim_refuted :
    (simulate_llm_disambiguation perthContext [perthAU, perthUK]).geolocation_confidence = 1/4 ∧
    ¬((simulate_llm_disambiguation perthContext
        [perthAU, perthUK]).geolocation_confidence > 1/2) := by
  rw [perth_example_result]
  norm_num

/-- Claim C3, amended: on the Perth example both candidates score `0`, so
the scorer falls back to the first candidate `"Perth, Australia"` with the
fixed low-confidence value `1/4` and the ambiguity justification. -/
theorem perth_example_falls_back :
    simulate_llm_disambiguation perthContext [perthAU, perthUK] =
      ⟨some "Perth, Australia", some (-3195/100, 11586/100), 1/4,
        fallbackJustification⟩ :=
  perth_example_result

/-! ### Claim C8 -/

/-- Claim C8: for every possible regex-match list and context, the
extractor's output has no duplicates, contains no stop word and no string
of length ≤ 2, and contains `"Western Australia"` whenever the literal
`"WA"` occurs in the context. -/
theorem extraction_postconditions :
    ∀ (potential_locations : List String) (context : String),
      (simulate_llm_location_extraction potential_locations context).Nodup ∧
      (∀ s ∈ simulate_llm_location_extraction potential_locations context,
        s ∉ stop_words ∧ 2 < s.length) ∧
      (pyInS "WA" context = true →
        "Western Australia" ∈ simulate_llm_location_extraction potential_locations context) := by
  intro pl context
  simp only [simulate_llm_location_extraction]
  refine ⟨List.nodup_dedup _, ?_, ?_⟩
  · intro s hs
    rw [List.mem_dedup] at hs
    have hsplit : s ∈ pl.filter
        (fun loc => !(stop_words.contains loc) && decide (loc.length > 2)) ∨
        s = "Western Australia" := by
      by_cases hc : (pyInS "WA" context &&
          !((pl.filter (fun loc => !(stop_words.contains loc) &&
              decide (loc.length > 2))).contains "Western Australia")) = true
      · rw [if_pos hc] at hs
        rcases List.mem_append.mp hs with h | h
        · exact Or.inl h
        · exact Or.inr (List.mem_singleton.mp h)
      · rw [if_neg hc] at hs
        exact Or.inl hs
    rcases hsplit with h | h
    · obtain ⟨-, hp⟩ := List.mem_filter.mp h
      simpa using hp
    · subst h
      exact ⟨by decide, by decide⟩
  · intro hWA
    rw [List.mem_dedup]
    generalize pl.filter
      (fun loc => !(stop_words.contains loc) && decide (loc.length > 2)) = L
    by_cases hc : "Western Australia" ∈ L
    · rw [if_neg (by simp [hWA, hc])]
      exact hc
    · rw [if_pos (by simp [hWA, hc])]
      exact List.mem_append.mpr (Or.inr (by simp))

/-- Witness for claim C8 at a concrete input: the filtered, deduplicated
output for matches `["The", "WA", "Acme Gold", "Acme Gold"]` in a context
containing `"WA"` is duplicate-free and contains `"Western Australia"`. -/
theorem extraction_postconditions_witness :
    (simulate_llm_location_extraction ["The", "WA", "Acme Gold", "Acme Gold"]
      "Acme Gold near WA").Nodup ∧
    "Western Australia" ∈ simulate_llm_location_extraction
      ["The", "WA", "Acme Gold", "Acme Gold"] "Acme Gold near WA" :=
  ⟨(extraction_postconditions ["The", "WA", "Acme Gold", "Acme Gold"]
      "Acme Gold near WA").1,
   (extraction_postconditions ["The", "WA", "Acme Gold", "Acme Gold"]
      "Acme Gold near WA").2.2 (by decide)⟩

/-! ### Claim C10 -/

/-- Claim C10, refuted on its totality half: the annotation whose `labels`
key holds the empty list satisfies the claim's precondition vacuously (it is
not PROJECT-labeled), yet `val.get("labels", [None])[0]` raises
`IndexError`, so the conversion is not total under that precondition. -/
theorem iob_totality_claim_refuted :
    (∀ v ∈ [(⟨some 0, some 1, some []⟩ : AnnValue)],
        extractLabel v = .ok (some "PROJECT") → v.start ≠ none ∧ v.end_ ≠ none) ∧
    foldAnns [((0 : Int), (4 : Int))] [⟨some 0, some 1, some []⟩] ["O"] =
      .error .indexError := by
  decide

/-- `applyAnn` succeeds on every annotation whose labels list is not the
present-but-empty list and whose end offset is present whenever the
annotation is PROJECT-labeled. -/
lemma applyAnn_total (token_spans : List (Int × Int)) (tags : List String)
    (v : AnnValue) (h1 : v.labels ≠ some [])
    (h2 : extractLabel v = .ok (some "PROJECT") → v.end_ ≠ none) :
    ∃ out, applyAnn token_spans tags v = .ok out := by
  obtain ⟨l, hl⟩ : ∃ l, extractLabel v = .ok l := by
    unfold extractLabel
    cases h : v.labels with
    | none => exact ⟨none, rfl⟩
    | some ls =>
      cases ls with
      | nil => exact absurd h h1
      | cons x xs => exact ⟨x, rfl⟩
  have happ : applyAnn token_spans tags v =
      (if l ≠ some "PROJECT" ∨ v.start = none then .ok tags
       else match v.start, v.end_ with
         | some s, some e => .ok (tagLoop "PROJECT" s e token_spans 0 true tags)
         | _, none => if token_spans.isEmpty then .ok tags else .error .typeError
         | none, some _ => .ok tags) := by
    unfold applyAnn
    rw [hl]
  rw [happ]
  by_cases hguard : l ≠ some "PROJECT" ∨ v.start = none
  · rw [if_pos hguard]
    exact ⟨tags, rfl⟩
  · rw [if_neg hguard]
    push_neg at hguard
    obtain ⟨hproj, hstart⟩ := hguard
    subst hproj
    cases hs : v.start with
    | none => exact absurd hs hstart
    | some s =>
      cases he : v.end_ with
      | none => exact absurd he (h2 hl)
      | some e => exact ⟨_, rfl⟩

/-- The annotation loop succeeds on every list of annotations whose labels
lists are never present-but-empty and whose PROJECT-labeled members carry
both offsets. -/
lemma foldAnns_total :
    ∀ (anns : List AnnValue) (token_spans : List (Int × Int)) (tags : List String),
      (∀ v ∈ anns, v.labels ≠ some [] ∧
        (extractLabel v = .ok (some "PROJECT") → v.start ≠ none ∧ v.end_ ≠ none)) →
      ∃ out, foldAnns token_spans anns tags = .ok out := by
  intro anns
  induction anns with
  | nil => exact fun ts tags _ => ⟨tags, rfl⟩
  | cons a rest ih =>
    intro ts tags h
    obtain ⟨t1, ht1⟩ := applyAnn_total ts tags a (h a (List.mem_cons_self a rest)).1
      (fun hp => ((h a (List.mem_cons_self a rest)).2 hp).2)
    obtain ⟨out, hout⟩ := ih ts t1 (fun v hv => h v (List.mem_cons_of_mem a hv))
    refine ⟨out, ?_⟩
    unfold foldAnns
    rw [ht1]
    exact hout

/-- Claim C10, amended: the conversion is total once the precondition also
excludes present-but-empty labels lists — every PROJECT-labeled span
carrying integer start and end offsets then aligns without raising — while
a PROJECT span with an integer start and an absent end still makes the
overlap test compare `None` against an integer and raise `TypeError`. -/
theorem iob_totality_amended :
    (∀ (anns : List AnnValue) (token_spans : List (Int × Int)) (tags : List String),
      (∀ v ∈ anns, v.labels ≠ some [] ∧
        (extractLabel v = .ok (some "PROJECT") → v.start ≠ none ∧ v.end_ ≠ none)) →
      ∃ out, foldAnns token_spans anns tags = .ok out) ∧
    foldAnns [((0 : Int), (4 : Int))] [⟨some 0, none, some [some "PROJECT"]⟩] ["O"] =
      .error .typeError :=
  ⟨foldAnns_total, by decide⟩

/-- Witness for the amended claim C10 at a concrete input satisfying the
precondition: a well-formed PROJECT annotation aligns without an error. -/
theorem iob_totality_amended_witness :
    ∃ out, foldAnns [((0 : Int), (4 : Int))]
      [⟨some 0, some 9, some [some "PROJECT"]⟩] ["O"] = .ok out :=
  iob_totality_amended.1 [⟨some 0, some 9, some [some "PROJECT"]⟩]
    [((0 : Int), (4 : Int))] ["O"] (by decide)

/-! ### Claim C9 -/

/-- The `previous_word_idx` value the loop holds when it reaches position
`k`: the initial `prev` at position 0, and the preceding piece's `word_idx`
afterwards. -/
def prevAt (word_ids : List (Option Nat)) (prev : Option Nat) : Nat → Option Nat
  | 0 => prev
  | k + 1 => (word_ids[k]?).getD none

/-- `prevAt` steps through a cons cell. -/
lemma prevAt_cons (w : Option Nat) (rest : List (Option Nat)) (prev : Option Nat) :
    ∀ k, prevAt (w :: rest) prev (k + 1) = prevAt rest w k := by
  intro k
  cases k with
  | zero => simp [prevAt]
  | succ j => simp [prevAt]

/-- Pointwise characterization of the re-alignment loop: every produced
entry is either the ignore value `-100` (piece with no owning token, or
repeating the running `previous_word_idx`) or the looked-up label id of its
owning token. -/
lemma alignLabelIds_spec (ner_tags : List Int) :
    ∀ (word_ids : List (Option Nat)) (prev : Option Nat) (out : List Int),
      alignLabelIds ner_tags word_ids prev = some out →
      out.length = word_ids.length ∧
      ∀ k v, out[k]? = some v →
        ∃ w, word_ids[k]? = some w ∧
          ((v = -100 ∧ (w = none ∨ w = prevAt word_ids prev k)) ∨
           (∃ idx, w = some idx ∧ w ≠ prevAt word_ids prev k ∧
             ner_tags[idx]? = some v)) := by
  intro word_ids
  induction word_ids with
  | nil =>
    intro prev out h
    have h' : some ([] : List Int) = some out := h
    obtain rfl : ([] : List Int) = out := Option.some.inj h'
    exact ⟨rfl, by intro k v hkv; simp at hkv⟩
  | cons w rest ih =>
    intro prev out h
    unfold alignLabelIds at h
    cases hv : pieceValue ner_tags w prev with
    | none => rw [hv] at h; exact absurd h (by simp)
    | some v0 =>
      rw [hv] at h
      cases ht : alignLabelIds ner_tags rest w with
      | none => rw [ht] at h; exact absurd h (by simp)
      | some tail =>
        rw [ht] at h
        have h' : some (v0 :: tail) = some out := h
        obtain rfl : v0 :: tail = out := Option.some.inj h'
        obtain ⟨hlen, htail⟩ := ih w tail ht
        refine ⟨by simp [hlen], ?_⟩
        intro k v hkv
        cases k with
        | zero =>
          simp only [List.getElem?_cons_zero, Option.some.injEq] at hkv
          subst hkv
          refine ⟨w, by simp, ?_⟩
          cases w with
          | none =>
            obtain rfl := Option.some.inj (hv : some (-100 : Int) = some v0)
            exact Or.inl ⟨rfl, Or.inl rfl⟩
          | some idx =>
            have hv' : (if (some idx : Option Nat) = prev then some (-100 : Int)
                else ner_tags[idx]?) = some v0 := hv
            by_cases hprev : (some idx : Option Nat) = prev
            · rw [if_pos hprev] at hv'
              obtain rfl := Option.some.inj hv'
              exact Or.inl ⟨rfl, Or.inr hprev⟩
            · rw [if_neg hprev] at hv'
              exact Or.inr ⟨idx, rfl, hprev, hv'⟩
        | succ j =>
          simp only [List.getElem?_cons_succ] at hkv
          obtain ⟨w', hw', hdisj⟩ := htail j v hkv
          refine ⟨w', by simpa using hw', ?_⟩
          rw [prevAt_cons]
          exact hdisj

/-- Claim C9: encoding any tag of the three-symbol alphabet and decoding
back through the inverse of the fixed enumeration is the identity; the
sub-word ignore value `-100` differs from every encoded id; and in a
re-aligned label sequence built from encoded ids, every entry is `-100`
exactly at the deliberate ignore positions and an encoded — hence losslessly
decodable — label id everywhere else. -/
theorem tag_id_roundtrip :
    (∀ tag ∈ label_list, label_decoding (label_encoding tag) = some tag) ∧
    (∀ tag : String, label_encoding tag ≠ -100) ∧
    (∀ (ner_tags : List Int) (word_ids : List (Option Nat)) (out : List Int),
      (∀ x ∈ ner_tags, ∃ tag ∈ label_list, x = label_encoding tag) →
      alignLabelIds ner_tags word_ids none = some out →
      ∀ k v, out[k]? = some v →
        (ignorePos word_ids k → v = -100) ∧
        (¬ignorePos word_ids k →
          ∃ tag ∈ label_list, v = label_encoding tag ∧
            label_decoding v = some tag)) := by
  have hdec : ∀ tag ∈ label_list, label_decoding (label_encoding tag) = some tag := by
    decide
  refine ⟨hdec, ?_, ?_⟩
  · intro tag
    unfold label_encoding
    cases h : label_list.findIdx? fun l => l == tag with
    | none =>
      show (0 : Int) ≠ -100
      decide
    | some i =>
      show (i : Int) ≠ -100
      omega
  · intro ner_tags word_ids out hvalid halign k v hkv
    obtain ⟨w, hw, hdisj⟩ :=
      (alignLabelIds_spec ner_tags word_ids none out halign).2 k v hkv
    have hklen : k < word_ids.length := by
      by_contra hge
      rw [List.getElem?_eq_none (Nat.le_of_not_lt hge)] at hw
      exact Option.noConfusion hw
    rcases hdisj with ⟨rfl, hcase⟩ | ⟨idx, rfl, hne, hlook⟩
    · have hig : ignorePos word_ids k := by
        rcases hcase with rfl | heq
        · exact Or.inl hw
        · cases k with
          | zero =>
            have hwnone : w = none := heq
            subst hwnone
            exact Or.inl hw
          | succ j =>
            have hj : j < word_ids.length := Nat.lt_of_succ_lt hklen
            have hjget := List.getElem?_eq_getElem hj
            have hw' : w = word_ids[j] := by
              have hpe : prevAt word_ids none (j + 1) = (word_ids[j]?).getD none := rfl
              rw [hpe, hjget] at heq
              simpa using heq
            refine Or.inr ⟨Nat.succ_pos j, ?_⟩
            simp only [Nat.add_sub_cancel]
            rw [hw, hjget, hw']
      exact ⟨fun _ => rfl, fun hnot => absurd hig hnot⟩
    · have hnig : ¬ignorePos word_ids k := by
        intro hig
        rcases hig with hleft | ⟨hpos, heq⟩
        · rw [hw] at hleft
          exact absurd (Option.some.inj hleft) (by simp)
        · apply hne
          cases k with
          | zero => exact absurd hpos (by simp)
          | succ j =>
            have hj : j < word_ids.length := Nat.lt_of_succ_lt hklen
            have hjget := List.getElem?_eq_getElem hj
            have hpe : prevAt word_ids none (j + 1) = (word_ids[j]?).getD none := rfl
            rw [hpe, hjget]
            simp only [Option.getD_some]
            simp only [Nat.add_sub_cancel] at heq
            rw [hw, hjget] at heq
            exact Option.some.inj heq
      refine ⟨fun hig => absurd hig hnig, fun _ => ?_⟩
      obtain ⟨tag, htag, henc⟩ := hvalid v (List.getElem?_mem hlook)
      exact ⟨tag, htag, henc, by rw [henc]; exact hdec tag htag⟩

/-- Witness for claim C9 at concrete inputs: the round trip on
`"B-PROJECT"`, the ignore value's distinctness, and the characterization of
the re-aligned sequence `[0, -100]` for word ids `[some 0, some 0]` at the
repeated-piece position 1. -/
theorem tag_id_roundtrip_witness :
    label_decoding (label_encoding "B-PROJECT") = some "B-PROJECT" ∧
    label_encoding "I-PROJECT" ≠ -100 ∧
    ((ignorePos [some 0, some 0] 1 → (-100 : Int) = -100) ∧
     (¬ignorePos [some 0, some 0] 1 →
       ∃ tag ∈ label_list, (-100 : Int) = label_encoding tag ∧
         label_decoding (-100) = some tag)) :=
  ⟨tag_id_roundtrip.1 "B-PROJECT" (by decide),
   tag_id_roundtrip.2.1 "I-PROJECT",
   tag_id_roundtrip.2.2 [0] [some 0, some 0] [0, -100] (by decide) (by decide)
     1 (-100) (by decide)⟩

/-! ### Claim C5 -/

/-- Every candidate score is a sum of non-negative bonuses. -/
lemma candScore_nonneg (context : String) (cand : LocationCandidate) :
    0 ≤ candScore context cand := by
  simp only [candScore]
  apply add_nonneg
  · split
    · norm_num
    · split <;> norm_num
  · split <;> norm_num

/-- The best-candidate loop computes the first argmax: either no candidate
beats the running maximum `m₀` and the accumulator survives, or the result
is the earliest candidate attaining the strictly highest score. -/
lemma pickBest_spec (context : String) :
    ∀ (cands : List LocationCandidate) (b₀ : Option LocationCandidate) (m₀ : ℚ),
      ((∀ k (hk : k < cands.length), candScore context cands[k] ≤ m₀) ∧
        pickBest context cands (b₀, m₀) = (b₀, m₀)) ∨
      (∃ j, ∃ hj : j < cands.length,
        m₀ < candScore context cands[j] ∧
        (∀ k (hk : k < cands.length),
          candScore context cands[k] ≤ candScore context cands[j]) ∧
        (∀ k (hk : k < j), candScore context cands[k] < candScore context cands[j]) ∧
        pickBest context cands (b₀, m₀) =
          (some cands[j], candScore context cands[j])) := by
  intro cands
  induction cands with
  | nil =>
    intro b₀ m₀
    exact Or.inl ⟨fun k hk => absurd hk (by simp), rfl⟩
  | cons c rest ih =>
    intro b₀ m₀
    by_cases hc : candScore context c > m₀
    · have hstep : pickBest context (c :: rest) (b₀, m₀) =
          pickBest context rest (some c, candScore context c) := by
        simp only [pickBest]
        rw [if_pos hc]
      rcases ih (some c) (candScore context c) with ⟨hall, heq⟩ |
        ⟨j, hj, hgt, hmax, hfirst, heq⟩
      · refine Or.inr ⟨0, by simp, by simpa using hc, ?_, ?_, ?_⟩
        · intro k hk
          cases k with
          | zero => simp
          | succ k2 =>
            have hk2 : k2 < rest.length := by simpa using hk
            simpa using hall k2 hk2
        · intro k hk
          exact absurd hk (Nat.not_lt_zero k)
        · rw [hstep, heq]
          simp
      · refine Or.inr ⟨j + 1, by simpa using Nat.succ_lt_succ hj, ?_, ?_, ?_, ?_⟩
        · simpa using lt_trans hc hgt
        · intro k hk
          cases k with
          | zero => simpa using le_of_lt hgt
          | succ k2 =>
            have hk2 : k2 < rest.length := by simpa using hk
            simpa using hmax k2 hk2
        · intro k hk
          cases k with
          | zero => simpa using hgt
          | succ k2 =>
            have hk2 : k2 < j := by omega
            simpa using hfirst k2 hk2
        · rw [hstep, heq]
          simp
    · have hstep : pickBest context (c :: rest) (b₀, m₀) =
          pickBest context rest (b₀, m₀) := by
        simp only [pickBest]
        rw [if_neg hc]
      rcases ih b₀ m₀ with ⟨hall, heq⟩ | ⟨j, hj, hgt, hmax, hfirst, heq⟩
      · refine Or.inl ⟨?_, by rw [hstep]; exact heq⟩
        intro k hk
        cases k with
        | zero => simpa using le_of_not_lt hc
        | succ k2 =>
          have hk2 : k2 < rest.length := by simpa using hk
          simpa using hall k2 hk2
      · refine Or.inr ⟨j + 1, by simpa using Nat.succ_lt_succ hj,
          by simpa using hgt, ?_, ?_, ?_⟩
        · intro k hk
          cases k with
          | zero =>
            have h1 : candScore context c ≤ m₀ := le_of_not_lt hc
            simpa using le_of_lt (lt_of_le_of_lt h1 hgt)
          | succ k2 =>
            have hk2 : k2 < rest.length := by simpa using hk
            simpa using hmax k2 hk2
        · intro k hk
          cases k with
          | zero =>
            have h1 : candScore context c ≤ m₀ := le_of_not_lt hc
            simpa using lt_of_le_of_lt h1 hgt
          | succ k2 =>
            have hk2 : k2 < j := by omega
            simpa using hfirst k2 hk2
        · rw [hstep, heq]
          simp

/-- Reading off the scorer's result once the best-candidate loop's outcome
is known. -/
lemma simulate_eq_of_pickBest (context : String) (c : LocationCandidate)
    (rest : List LocationCandidate) (best : LocationCandidate) (m : ℚ)
    (h : pickBest context (c :: rest) (none, -1) = (some best, m)) :
    simulate_llm_disambiguation context (c :: rest) =
      if m > 1/2 then
        ⟨some best.name, some (best.latitude, best.longitude),
          min (pyRound4 m) 1, successJustification (min (pyRound4 m) 1)⟩
      else
        ⟨some c.name, some (c.latitude, c.longitude), 1/4,
          fallbackJustification⟩ := by
  unfold simulate_llm_disambiguation
  rw [h]

/-- Claim C5: the scorer's full postcondition.  An empty candidate list
yields the null result with confidence `0`; otherwise the winner is the
earliest candidate attaining the strictly highest score (strict `>`
improvements only), returned with confidence `min(round(score, 4), 1)` when
its score exceeds `1/2`, and the *first* input candidate with confidence
exactly `1/4` otherwise. -/
theorem disambiguation_postcondition :
    (∀ context : String, simulate_llm_disambiguation context [] =
      ⟨none, none, 0, noCandidatesJustification⟩) ∧
    (∀ (context : String) (cands : List LocationCandidate) (hne : cands ≠ []),
      ∃ j, ∃ hj : j < cands.length,
        (∀ k (hk : k < cands.length),
          candScore context cands[k] ≤ candScore context cands[j]) ∧
        (∀ k (hk : k < j), candScore context cands[k] < candScore context cands[j]) ∧
        simulate_llm_disambiguation context cands =
          (if candScore context cands[j] > 1/2 then
            ⟨some cands[j].name, some (cands[j].latitude, cands[j].longitude),
              min (pyRound4 (candScore context cands[j])) 1,
              successJustification (min (pyRound4 (candScore context cands[j])) 1)⟩
          else
            ⟨some (cands.head hne).name,
              some ((cands.head hne).latitude, (cands.head hne).longitude),
              1/4, fallbackJustification⟩)) := by
  constructor
  · intro context
    rfl
  · intro context cands hne
    obtain ⟨c, rest, rfl⟩ := List.exists_cons_of_ne_nil hne
    rcases pickBest_spec context (c :: rest) none (-1) with ⟨hall, _⟩ |
      ⟨j, hj, _, hmax, hfirst, heq⟩
    · have h0 := hall 0 (by simp)
      have hn := candScore_nonneg context ((c :: rest)[0])
      exact absurd (le_trans hn h0) (by norm_num)
    · exact ⟨j, hj, hmax, hfirst, simulate_eq_of_pickBest context c rest _ _ heq⟩

/-- Witness for claim C5 on the one-candidate list `[⟨"A", 1, 2⟩]` with
context `"ctx"`: the theorem instantiates to a concrete first-argmax
description of the scorer's output. -/
theorem disambiguation_postcondition_witness :
    ∃ j, ∃ hj : j < ([⟨"A", 1, 2⟩] : List LocationCandidate).length,
      (∀ k (hk : k < ([⟨"A", 1, 2⟩] : List LocationCandidate).length),
        candScore "ctx" ([⟨"A", 1, 2⟩] : List LocationCandidate)[k] ≤
          candScore "ctx" ([⟨"A", 1, 2⟩] : List LocationCandidate)[j]) ∧
      (∀ k (hk : k < j),
        candScore "ctx" ([⟨"A", 1, 2⟩] : List LocationCandidate)[k] <
          candScore "ctx" ([⟨"A", 1, 2⟩] : List LocationCandidate)[j]) ∧
      simulate_llm_disambiguation "ctx" [⟨"A", 1, 2⟩] =
        (if candScore "ctx" ([⟨"A", 1, 2⟩] : List LocationCandidate)[j] > 1/2 then
          ⟨some ([⟨"A", 1, 2⟩] : List LocationCandidate)[j].name,
            some (([⟨"A", 1, 2⟩] : List LocationCandidate)[j].latitude,
              ([⟨"A", 1, 2⟩] : List LocationCandidate)[j].longitude),
            min (pyRound4 (candScore "ctx" ([⟨"A", 1, 2⟩] : List LocationCandidate)[j])) 1,
            successJustification
              (min (pyRound4 (candScore "ctx"
                ([⟨"A", 1, 2⟩] : List LocationCandidate)[j])) 1)⟩
        else
          ⟨some (([⟨"A", 1, 2⟩] : List LocationCandidate).head (by simp)).name,
            some ((([⟨"A", 1, 2⟩] : List LocationCandidate).head (by simp)).latitude,
              (([⟨"A", 1, 2⟩] : List LocationCandidate).head (by simp)).longitude),
            1/4, fallbackJustification⟩) :=
  disambiguation_postcondition.2 "ctx" [⟨"A", 1, 2⟩] (by simp)

/-! ### Claim C6 -/

/-- The tag loop never changes the number of tags. -/
lemma tagLoop_length (label : String) (s e : Int) :
    ∀ (spans : List (Int × Int)) (k : Nat) (first : Bool) (tags : List String),
      (tagLoop label s e spans k first tags).length = tags.length := by
  intro spans
  induction spans with
  | nil => intro k first tags; rfl
  | cons tok rest ih =>
    intro k first tags
    simp only [tagLoop]
    split <;> simp [ih]

/-- Pointwise description of the tag loop started at counter `k`: position
`m` is overwritten exactly when span `m - k` exists and overlaps, receiving
the `B-` tag when the `first` flag is still up and no earlier span overlaps,
and the `I-` tag otherwise; every other position is untouched. -/
lemma tagLoop_getElem (label : String) (s e : Int) :
    ∀ (spans : List (Int × Int)) (k : Nat) (first : Bool) (tags : List String) (m : Nat),
      (tagLoop label s e spans k first tags)[m]? =
        if k ≤ m ∧ optHit s e spans[m - k]? = true then
          (tags.set m (if first && noHitBefore s e spans (m - k) then "B-" ++ label
            else "I-" ++ label))[m]?
        else tags[m]? := by
  intro spans
  induction spans with
  | nil =>
    intro k first tags m
    rw [if_neg]
    · rfl
    · rintro ⟨-, hhit⟩
      simp [optHit] at hhit
  | cons tok rest ih =>
    intro k first tags m
    by_cases hov : spanOverlap s e tok = true
    · have hstep : tagLoop label s e (tok :: rest) k first tags =
          tagLoop label s e rest (k + 1) false
            (tags.set k (if first then "B-" ++ label else "I-" ++ label)) := by
        simp only [tagLoop]
        rw [if_pos hov]
      rw [hstep, ih]
      rcases Nat.lt_trichotomy m k with hmk | rfl | hkm
      · have c1 : ¬(k + 1 ≤ m ∧ optHit s e rest[m - (k + 1)]? = true) := by
          rintro ⟨h1, -⟩; omega
        have c2 : ¬(k ≤ m ∧ optHit s e (tok :: rest)[m - k]? = true) := by
          rintro ⟨h1, -⟩; omega
        rw [if_neg c1, if_neg c2, List.getElem?_set_ne (by omega)]
      · have c1 : ¬(m + 1 ≤ m ∧ optHit s e rest[m - (m + 1)]? = true) := by
          rintro ⟨h1, -⟩; omega
        have c2 : m ≤ m ∧ optHit s e (tok :: rest)[m - m]? = true := by
          refine ⟨le_refl m, ?_⟩
          rw [Nat.sub_self]
          simpa [optHit] using hov
        rw [if_neg c1, if_pos c2]
        simp [Nat.sub_self, noHitBefore]
      · have hd : m - k = (m - (k + 1)) + 1 := by omega
        by_cases hh : optHit s e rest[m - (k + 1)]? = true
        · have c1 : k + 1 ≤ m ∧ optHit s e rest[m - (k + 1)]? = true := ⟨by omega, hh⟩
          have c2 : k ≤ m ∧ optHit s e (tok :: rest)[m - k]? = true := by
            refine ⟨by omega, ?_⟩
            rw [hd]
            simpa using hh
          rw [if_pos c1, if_pos c2]
          have hB : noHitBefore s e (tok :: rest) (m - k) = false := by
            rw [hd]
            simp [noHitBefore, hov]
          rw [hB]
          simp [List.getElem?_set, List.length_set]
        · have c1 : ¬(k + 1 ≤ m ∧ optHit s e rest[m - (k + 1)]? = true) := by
            rintro ⟨-, hcon⟩; exact hh hcon
          have c2 : ¬(k ≤ m ∧ optHit s e (tok :: rest)[m - k]? = true) := by
            rintro ⟨-, hcon⟩
            rw [hd] at hcon
            simp only [List.getElem?_cons_succ] at hcon
            exact hh hcon
          rw [if_neg c1, if_neg c2, List.getElem?_set_ne (by omega)]
    · have hstep : tagLoop label s e (tok :: rest) k first tags =
          tagLoop label s e rest (k + 1) first tags := by
        simp only [tagLoop]
        rw [if_neg hov]
      rw [hstep, ih]
      rcases Nat.lt_trichotomy m k with hmk | rfl | hkm
      · have c1 : ¬(k + 1 ≤ m ∧ optHit s e rest[m - (k + 1)]? = true) := by
          rintro ⟨h1, -⟩; omega
        have c2 : ¬(k ≤ m ∧ optHit s e (tok :: rest)[m - k]? = true) := by
          rintro ⟨h1, -⟩; omega
        rw [if_neg c1, if_neg c2]
      · have c1 : ¬(m + 1 ≤ m ∧ optHit s e rest[m - (m + 1)]? = true) := by
          rintro ⟨h1, -⟩; omega
        have c2 : ¬(m ≤ m ∧ optHit s e (tok :: rest)[m - m]? = true) := by
          rintro ⟨-, hcon⟩
          rw [Nat.sub_self] at hcon
          simp [optHit, hov] at hcon
        rw [if_neg c1, if_neg c2]
      · have hd : m - k = (m - (k + 1)) + 1 := by omega
        by_cases hh : optHit s e rest[m - (k + 1)]? = true
        · have c1 : k + 1 ≤ m ∧ optHit s e rest[m - (k + 1)]? = true := ⟨by omega, hh⟩
          have c2 : k ≤ m ∧ optHit s e (tok :: rest)[m - k]? = true := by
            refine ⟨by omega, ?_⟩
            rw [hd]
            simpa using hh
          have hB : noHitBefore s e (tok :: rest) (m - k) =
              noHitBefore s e rest (m - (k + 1)) := by
            rw [hd]
            simp [noHitBefore, hov]
          rw [if_pos c1, if_pos c2, hB]
        · have c1 : ¬(k + 1 ≤ m ∧ optHit s e rest[m - (k + 1)]? = true) := by
            rintro ⟨-, hcon⟩; exact hh hcon
          have c2 : ¬(k ≤ m ∧ optHit s e (tok :: rest)[m - k]? = true) := by
            rintro ⟨-, hcon⟩
            rw [hd] at hcon
            simp only [List.getElem?_cons_succ] at hcon
            exact hh hcon
          rw [if_neg c1, if_neg c2]

/-- A successful `applyAnn` either leaves the tags unchanged (the annotation
is skipped, or applies over an empty span list) or runs the tag loop for the
annotation's applied interval. -/
lemma applyAnn_cases (token_spans : List (Int × Int)) (tags : List String)
    (v : AnnValue) (tags' : List String)
    (h : applyAnn token_spans tags v = .ok tags') :
    (appliedSpan v = none ∧ tags' = tags) ∨
    (∃ s e, appliedSpan v = some (s, e) ∧
      tags' = tagLoop "PROJECT" s e token_spans 0 true tags) := by
  unfold applyAnn at h
  cases hx : extractLabel v with
  | error err =>
    rw [hx] at h
    exact absurd h (by simp)
  | ok label =>
    rw [hx] at h
    have h' : (if label ≠ some "PROJECT" ∨ v.start = none then
        Except.ok (ε := PyErr) tags
       else match v.start, v.end_ with
         | some s, some e => .ok (tagLoop "PROJECT" s e token_spans 0 true tags)
         | _, none => if token_spans.isEmpty then .ok tags else .error .typeError
         | none, some _ => .ok tags) = .ok tags' := h
    by_cases hguard : label ≠ some "PROJECT" ∨ v.start = none
    · rw [if_pos hguard] at h'
      refine Or.inl ⟨?_, (Except.ok.inj h').symm⟩
      unfold appliedSpan
      rw [hx]
      split
      · rename_i heq1 heq2 heq3
        exfalso
        rcases hguard with hlab | hstart
        · exact hlab (Except.ok.inj heq1)
        · rw [hstart] at heq2
          exact Option.noConfusion heq2
      · rfl
    · rw [if_neg hguard] at h'
      push_neg at hguard
      obtain ⟨hproj, hstart⟩ := hguard
      subst hproj
      cases hs : v.start with
      | none => exact absurd hs hstart
      | some s =>
        rw [hs] at h'
        cases he : v.end_ with
        | some e =>
          rw [he] at h'
          have h'' : Except.ok (ε := PyErr)
              (tagLoop "PROJECT" s e token_spans 0 true tags) = .ok tags' := h'
          refine Or.inr ⟨s, e, ?_, (Except.ok.inj h'').symm⟩
          unfold appliedSpan
          rw [hx, hs, he]
          rfl
        | none =>
          rw [he] at h'
          have h'' : (if token_spans.isEmpty then Except.ok (ε := PyErr) tags
              else .error .typeError) = .ok tags' := h'
          by_cases hts : token_spans.isEmpty
          · rw [if_pos hts] at h''
            refine Or.inl ⟨?_, (Except.ok.inj h'').symm⟩
            unfold appliedSpan
            rw [hx, hs, he]
            rfl
          · rw [if_neg hts] at h''
            exact absurd h'' (by simp)

/-- Peeling the first annotation off `lastWriter`: the earlier annotations
in the list are consulted only when no later annotation wrote the token. -/
lemma lastWriter_cons (a : AnnValue) (anns : List AnnValue)
    (token_spans : List (Int × Int)) (i : Nat) :
    lastWriter (a :: anns) token_spans i =
      (lastWriter anns token_spans i).or
        (match appliedSpan a with
         | some se => if optHit se.1 se.2 token_spans[i]? = true then some se else none
         | none => none) := by
  unfold lastWriter
  rw [List.filterMap_cons]
  cases hsp : appliedSpan a with
  | none => simp
  | some se =>
    rw [List.reverse_cons, List.find?_append]
    by_cases hp : optHit se.1 se.2 token_spans[i]? = true
    · simp [hp]
    · simp [hp]

/-- Claim C6: full characterization of the annotation-to-tag alignment.
Given enough initial tags (one per token span), a successful run of the
annotation loop leaves token `i`'s tag unchanged unless some applied
(PROJECT-labeled, offset-carrying) annotation overlaps it under the strict
rule `max(ann.start, tok.start) < min(ann.end, tok.end)`; in that case the
surviving tag comes from the LAST such annotation in listed order
(last-write-wins), and is `B-PROJECT` exactly when token `i` is that
annotation's first overlapping token, `I-PROJECT` otherwise. -/
theorem alignment_characterization :
    ∀ (anns : List AnnValue) (token_spans : List (Int × Int)) (tags₀ tags : List String),
      token_spans.length ≤ tags₀.length →
      foldAnns token_spans anns tags₀ = .ok tags →
      ∀ i, tags[i]? =
        match lastWriter anns token_spans i with
        | some se =>
          some (if noHitBefore se.1 se.2 token_spans i = true then "B-PROJECT"
            else "I-PROJECT")
        | none => tags₀[i]? := by
  intro anns
  induction anns with
  | nil =>
    intro ts tags₀ tags hlen h i
    have h' : Except.ok (ε := PyErr) tags₀ = .ok tags := h
    obtain rfl := Except.ok.inj h'
    rfl
  | cons a rest ih =>
    intro ts tags₀ tags hlen h i
    have hex : ∃ tags1, applyAnn ts tags₀ a = .ok tags1 ∧
        foldAnns ts rest tags1 = .ok tags := by
      unfold foldAnns at h
      cases hap : applyAnn ts tags₀ a with
      | error err => rw [hap] at h; exact absurd h (by simp)
      | ok tags1 => rw [hap] at h; exact ⟨tags1, rfl, h⟩
    obtain ⟨tags1, hap, hfold⟩ := hex
    have hlen1 : ts.length ≤ tags1.length := by
      rcases applyAnn_cases ts tags₀ a tags1 hap with ⟨-, rfl⟩ | ⟨s, e, -, rfl⟩
      · exact hlen
      · rw [tagLoop_length]; exact hlen
    have hih := ih ts tags1 tags hlen1 hfold i
    rw [lastWriter_cons]
    cases hlw : lastWriter rest ts i with
    | some se =>
      rw [hlw] at hih
      rw [Option.or_some]
      exact hih
    | none =>
      rw [hlw] at hih
      rw [Option.none_or]
      rcases applyAnn_cases ts tags₀ a tags1 hap with ⟨hnone, rfl⟩ | ⟨s, e, hsome, rfl⟩
      · rw [hnone]
        exact hih
      · rw [hsome]
        show tags[i]? =
          match (if optHit s e ts[i]? = true then some (s, e) else none) with
          | some se =>
            some (if noHitBefore se.1 se.2 ts i = true then "B-PROJECT"
              else "I-PROJECT")
          | none => tags₀[i]?
        have hih' : tags[i]? = (tagLoop "PROJECT" s e ts 0 true tags₀)[i]? := hih
        by_cases hh : optHit s e ts[i]? = true
        · rw [if_pos hh]
          show tags[i]? =
            some (if noHitBefore s e ts i = true then "B-PROJECT" else "I-PROJECT")
          have hits : i < ts.length := by
            cases hts : ts[i]? with
            | none => rw [hts] at hh; exact absurd hh (by simp [optHit])
            | some tok =>
              by_contra hge
              rw [List.getElem?_eq_none (Nat.le_of_not_lt hge)] at hts
              exact Option.noConfusion hts
          have hi0 : i < tags₀.length := lt_of_lt_of_le hits hlen
          rw [hih', tagLoop_getElem,
            if_pos ⟨Nat.zero_le i, by rw [Nat.sub_zero]; exact hh⟩,
            Nat.sub_zero, Bool.true_and, List.getElem?_set_self hi0]
          rfl
        · rw [if_neg hh]
          show tags[i]? = tags₀[i]?
          have hcond : ¬(0 ≤ i ∧ optHit s e ts[i - 0]? = true) := by
            rintro ⟨-, hcon⟩
            rw [Nat.sub_zero] at hcon
            exact hh hcon
          rw [hih', tagLoop_getElem, if_neg hcond]

/-- Witness for claim C6 at a concrete input: two overlapping PROJECT
annotations over three token spans; token 1's tag comes from the later
annotation (last-write-wins), as `B-PROJECT` since token 1 is that
annotation's first overlapping token. -/
theorem alignment_characterization_witness :
    (["B-PROJECT", "B-PROJECT", "I-PROJECT"] : List String)[1]? =
      match lastWriter
          [⟨some 0, some 9, some [some "PROJECT"]⟩,
           ⟨some 5, some 14, some [some "PROJECT"]⟩]
          [((0 : Int), (4 : Int)), ((5 : Int), (9 : Int)), ((10 : Int), (17 : Int))] 1 with
      | some se =>
        some (if noHitBefore se.1 se.2
            [((0 : Int), (4 : Int)), ((5 : Int), (9 : Int)), ((10 : Int), (17 : Int))] 1 = true
          then "B-PROJECT" else "I-PROJECT")
      | none => (["O", "O", "O"] : List String)[1]? :=
  alignment_characterization
    [⟨some 0, some 9, some [some "PROJECT"]⟩, ⟨some 5, some 14, some [some "PROJECT"]⟩]
    [((0 : Int), (4 : Int)), ((5 : Int), (9 : Int)), ((10 : Int), (17 : Int))]
    ["O", "O", "O"] ["B-PROJECT", "B-PROJECT", "I-PROJECT"]
    (by decide) (by decide) 1
